import Mathlib

/-!
# Verification of the simpleblog3 extension, caching and loader core

Shallow embedding of the extension-dispatch mechanism, the on-disk
attribute cache and the extension loader of the `simpleblog` package
(files `simpleblog/__init__.py`, `simpleblog/caching.py`,
`simpleblog/ext.py`, `simpleblog/sub.py`,
`simpleblog/extensions/__init__.py`), together with theorems settling
the specification claims about them.

Conventions of the embedding:
* Python values flowing through the hook mechanism are modelled by
  `PyVal α`: either one of the two module-level sentinel objects
  (`noresult`, `noreturn` in `simpleblog/__init__.py`) or an ordinary
  value of type `α`.  The sentinels are unique objects in Python, so the
  source's identity tests (`result is noreturn`,
  `result not in (noresult, noreturn)`) become constructor tests.
* Hook methods are pure functions; each call made by the dispatcher is
  additionally recorded in a trace of `CallRec` records so that theorems
  can speak about which hooks were invoked, in which order and with
  which arguments.  The trace is ghost instrumentation only.
* Keyword arguments are threaded by the source exactly like positional
  arguments (`*args, **kwargs` forwarded verbatim); the embedding keeps
  a single positional argument list.
-/

namespace Simpleblog

/-- A Python value as seen by the extension mechanism of
`simpleblog/__init__.py`: either the module-level sentinel `noresult`
("marker for no result returned"), the sentinel `noreturn` ("marker for
no return value at all"), or an ordinary value. -/
inductive PyVal (α : Type) where
  | noresult : PyVal α
  | noreturn : PyVal α
  | val : α → PyVal α
  deriving DecidableEq, Repr

/-- `result is noreturn` in `check_extensions`. -/
def PyVal.isNoreturn {α : Type} : PyVal α → Bool
  | .noreturn => true
  | _ => false

/-- `result is noresult` in `extendable_attr.make_method`. -/
def PyVal.isNoresult {α : Type} : PyVal α → Bool
  | .noresult => true
  | _ => false

/-- `result in (noresult, noreturn)`: the membership test ending the
loop of `check_extensions` (for the sentinel objects, Python `in` on
that tuple is an identity test). -/
def PyVal.isSentinel {α : Type} : PyVal α → Bool
  | .noresult => true
  | .noreturn => true
  | .val _ => false

/-- A loaded extension object (an instance of a `BlogExtension`
subclass).  `eid` models Python object identity, `attrs` models
`dir(self)` (the attribute names the instance exposes), and `hooks`
models `getattr(extension, key, None)`: for a hook-method name it
returns the bound method, otherwise `none`.  A hook method receives the
entity instance followed by the remaining positional arguments. -/
structure Extension (ι α : Type) where
  eid : Nat
  attrs : List String
  hooks : String → Option (ι → List (PyVal α) → PyVal α)

/-- Ghost record of one hook invocation performed by
`check_extensions`: which extension was called, with which argument
list (after the entity instance), and what the hook returned. -/
structure CallRec (α : Type) where
  ext : Nat
  args : List (PyVal α)
  ret : PyVal α
  deriving DecidableEq, Repr

/-- `check_extensions(instance, etype, key, args, kwargs, result,
modifying)` from `simpleblog/__init__.py` (the extension list passed in
is `extension_map.get(etype, ())`).  Returns the final `result`
together with the trace of hook invocations made, in order. -/
def check_extensions {ι α : Type} (exts : List (Extension ι α)) (inst : ι)
    (key : String) (args : List (PyVal α)) (result : PyVal α)
    (modifying : Bool) : PyVal α × List (CallRec α) :=
  match exts with
  | [] => (result, [])
  | e :: rest =>
    match e.hooks key with
    | none => check_extensions rest inst key args result modifying
    | some f =>
      if result.isNoreturn then
        -- `ext(instance, *args, **kwargs)`: return value discarded,
        -- `result` stays `noreturn`, the loop never breaks
        let ret := f inst args
        let r := check_extensions rest inst key args result modifying
        (r.1, ⟨e.eid, args, ret⟩ :: r.2)
      else
        -- `result = ext(instance, result, *args)` when modifying,
        -- `result = ext(instance, *args)` otherwise
        let callArgs := if modifying then result :: args else args
        let r1 := f inst callArgs
        if ¬ modifying ∧ r1.isSentinel = false then
          -- `if (not modifying) and (result not in (noresult, noreturn)): break`
          (r1, [⟨e.eid, callArgs, r1⟩])
        else
          let r := check_extensions rest inst key args r1 modifying
          (r.1, ⟨e.eid, callArgs, r1⟩ :: r.2)

/-- `'{0}_get_{1}'.format(etype, name)` in `make_method`. -/
def getkey (etype name : String) : String := etype ++ "_get_" ++ name

/-- `'{0}_mod_{1}'.format(etype, name)` in `make_method`. -/
def modkey (etype name : String) : String := etype ++ "_mod_" ++ name

/-- Result of one full dispatch through the method built by
`extendable_attr.make_method`, with ghost instrumentation: the final
result, the get-phase trace, whether the entity's own default
implementation was called, the base result it fed into the mod phase,
and the mod-phase trace. -/
structure DispatchResult (α : Type) where
  result : PyVal α
  getTrace : List (CallRec α)
  defaultCalled : Bool
  base : PyVal α
  modTrace : List (CallRec α)
  deriving Repr

/-- The method `meth` built by `extendable_attr.make_method(etype,
name)` around the base implementation `func`: run the get hooks, fall
back to `func` if no extension supplied a value, then run the mod
hooks over the base result. -/
def make_method {ι α : Type} (exts : List (Extension ι α))
    (etype name : String) (func : ι → List (PyVal α) → PyVal α)
    (inst : ι) (args : List (PyVal α)) : DispatchResult α :=
  let g := check_extensions exts inst (getkey etype name) args .noresult false
  -- `if result is noresult: result = self._func(innerself, *args, **kwargs)`
  let base := if g.1.isNoresult then func inst args else g.1
  let dc := g.1.isNoresult
  let m := check_extensions exts inst (modkey etype name) args base true
  ⟨m.1, g.2, dc, base, m.2⟩

/-- The `_newinit` wrapper installed by the `extendable` class
decorator: after the original constructor finishes,
`check_extensions(self, etype, '{etype}_post_init', result=noreturn)`
is run; its return value is discarded.  We return the trace of
post-init hook invocations. -/
def extendable_post_init {ι α : Type} (exts : List (Extension ι α))
    (etype : String) (inst : ι) : PyVal α × List (CallRec α) :=
  check_extensions exts inst (etype ++ "_post_init") [] .noreturn false

/-- Specification-side description of the get phase (spec §4.2 step 1):
iterate the extensions in priority order; each extension defining the
hook is called; the first one returning something other than the
`noresult` sentinel supplies the value and iteration stops; if none
does, the phase yields `noresult`. -/
def getPhaseSpec {ι α : Type} (exts : List (Extension ι α)) (inst : ι)
    (key : String) (args : List (PyVal α)) : PyVal α × List (CallRec α) :=
  match exts with
  | [] => (.noresult, [])
  | e :: rest =>
    match e.hooks key with
    | none => getPhaseSpec rest inst key args
    | some f =>
      let r := f inst args
      if r.isNoresult then
        let g := getPhaseSpec rest inst key args
        (g.1, ⟨e.eid, args, r⟩ :: g.2)
      else
        (r, [⟨e.eid, args, r⟩])

/-- Specification-side description of the mod phase (spec §4.2 step 2):
iterate all extensions in priority order with no early stop; each
extension defining the hook receives the current result and produces
the next one. -/
def modPhaseSpec {ι α : Type} (exts : List (Extension ι α)) (inst : ι)
    (key : String) (args : List (PyVal α)) (r0 : PyVal α) :
    PyVal α × List (CallRec α) :=
  match exts with
  | [] => (r0, [])
  | e :: rest =>
    match e.hooks key with
    | none => modPhaseSpec rest inst key args r0
    | some f =>
      let r := f inst (r0 :: args)
      let m := modPhaseSpec rest inst key args r
      (m.1, ⟨e.eid, r0 :: args, r⟩ :: m.2)

/-- In notification mode (`result=noreturn`, as used for post-init
hooks) `check_extensions` invokes every extension defining the hook, in
list order, discards the return values, and returns `noreturn`. -/
theorem check_extensions_noreturn {ι α : Type} (exts : List (Extension ι α))
    (inst : ι) (key : String) (args : List (PyVal α)) (modifying : Bool) :
    check_extensions exts inst key args .noreturn modifying =
      (.noreturn,
       exts.filterMap (fun e => (e.hooks key).map
         (fun f => ⟨e.eid, args, f inst args⟩))) := by
  induction exts with
  | nil => rfl
  | cons e rest ih =>
    simp only [check_extensions, List.filterMap_cons]
    cases h : e.hooks key with
    | none => simpa using ih
    | some f => simp [PyVal.isNoreturn, ih]

/-- If no get hook returns the `noreturn` sentinel, the get phase of
`check_extensions` computes exactly `getPhaseSpec`. -/
theorem check_extensions_get_eq_spec {ι α : Type} (exts : List (Extension ι α))
    (inst : ι) (key : String) (args : List (PyVal α))
    (hp : ∀ e ∈ exts, ∀ f, e.hooks key = some f →
          (f inst args).isNoreturn = false) :
    check_extensions exts inst key args .noresult false =
      getPhaseSpec exts inst key args := by
  induction exts with
  | nil => rfl
  | cons e rest ih =>
    have hrest : ∀ e ∈ rest, ∀ f, e.hooks key = some f →
        (f inst args).isNoreturn = false :=
      fun e' he' => hp e' (List.mem_cons_of_mem _ he')
    simp only [check_extensions, getPhaseSpec]
    cases h : e.hooks key with
    | none => exact ih hrest
    | some f =>
      have hf : (f inst args).isNoreturn = false := hp e (List.mem_cons_self _ _) f h
      cases hr : f inst args with
      | noreturn => rw [hr] at hf; simp [PyVal.isNoreturn] at hf
      | noresult =>
        simp [hr, PyVal.isNoreturn, PyVal.isSentinel, PyVal.isNoresult, ih hrest]
      | val v =>
        simp [hr, PyVal.isNoreturn, PyVal.isSentinel, PyVal.isNoresult]

/-- If no mod hook ever returns the `noreturn` sentinel and the
incoming result is not `noreturn`, the mod phase of `check_extensions`
computes exactly `modPhaseSpec`. -/
theorem check_extensions_mod_eq_spec {ι α : Type} (exts : List (Extension ι α))
    (inst : ι) (key : String) (args : List (PyVal α)) (r0 : PyVal α)
    (hp : ∀ e ∈ exts, ∀ f, e.hooks key = some f →
          ∀ r : PyVal α, (f inst (r :: args)).isNoreturn = false)
    (hr0 : r0.isNoreturn = false) :
    check_extensions exts inst key args r0 true =
      modPhaseSpec exts inst key args r0 := by
  induction exts generalizing r0 with
  | nil => rfl
  | cons e rest ih =>
    have hrest : ∀ e ∈ rest, ∀ f, e.hooks key = some f →
        ∀ r : PyVal α, (f inst (r :: args)).isNoreturn = false :=
      fun e' he' => hp e' (List.mem_cons_of_mem _ he')
    simp only [check_extensions, modPhaseSpec]
    cases h : e.hooks key with
    | none => exact ih r0 hrest hr0
    | some f =>
      have hf : (f inst (r0 :: args)).isNoreturn = false :=
        hp e (List.mem_cons_self _ _) f h r0
      have hrec := ih (f inst (r0 :: args)) hrest hf
      simp [hr0, hrec]

/-- The value computed by the mod phase is the left fold of the defined
mod hooks over the extension list, in load order. -/
theorem modPhaseSpec_fst_foldl {ι α : Type} (exts : List (Extension ι α))
    (inst : ι) (key : String) (args : List (PyVal α)) (r0 : PyVal α) :
    (modPhaseSpec exts inst key args r0).1 =
      exts.foldl (fun r e =>
        match e.hooks key with
        | some f => f inst (r :: args)
        | none => r) r0 := by
  induction exts generalizing r0 with
  | nil => rfl
  | cons e rest ih =>
    simp only [modPhaseSpec, List.foldl_cons]
    cases h : e.hooks key with
    | none => simp [ih]
    | some f => simp [ih]

/-- The mod phase consults every extension defining the hook, in load
order, with no early stop. -/
theorem modPhaseSpec_trace_exts {ι α : Type} (exts : List (Extension ι α))
    (inst : ι) (key : String) (args : List (PyVal α)) (r0 : PyVal α) :
    (modPhaseSpec exts inst key args r0).2.map CallRec.ext =
      (exts.filter (fun e => (e.hooks key).isSome)).map Extension.eid := by
  induction exts generalizing r0 with
  | nil => rfl
  | cons e rest ih =>
    simp only [modPhaseSpec, List.filter_cons]
    cases h : e.hooks key with
    | none => simpa using ih r0
    | some f => simp [ih]

/-- C1: For every extensible attribute or operation of an entity kind,
the dispatch consults the extensions registered for that kind in load
order under the hook name `{kind}_get_{name}`; the first extension
whose get hook returns anything other than the `noresult` sentinel —
including falsy values such as the empty string, which are ordinary
`PyVal.val` values — supplies the base result and stops the iteration,
and the entity's own default implementation produces the base result
only if no extension supplied a value.  (Hypothesis: get hooks do not
return the internal `noreturn` sentinel, which is reserved for
notification hooks.) -/
theorem C1_first_get_result_wins {ι α : Type} (exts : List (Extension ι α))
    (etype name : String) (func : ι → List (PyVal α) → PyVal α)
    (inst : ι) (args : List (PyVal α))
    (hp : ∀ e ∈ exts, ∀ f, e.hooks (getkey etype name) = some f →
          (f inst args).isNoreturn = false) :
    (make_method exts etype name func inst args).getTrace =
        (getPhaseSpec exts inst (getkey etype name) args).2 ∧
    (make_method exts etype name func inst args).defaultCalled =
        (getPhaseSpec exts inst (getkey etype name) args).1.isNoresult ∧
    (make_method exts etype name func inst args).base =
        (if (getPhaseSpec exts inst (getkey etype name) args).1.isNoresult
         then func inst args
         else (getPhaseSpec exts inst (getkey etype name) args).1) := by
  have h := check_extensions_get_eq_spec exts inst (getkey etype name) args hp
  refine ⟨?_, ?_, ?_⟩ <;> simp [make_method, h]

/-- Fixture hook table for witnesses: defines a single get hook for the
attribute `title` of kind `entry`, returning the fixed value `r`. -/
def wGetHooks (r : PyVal String) :
    String → Option (Unit → List (PyVal String) → PyVal String) :=
  fun k => if k = "entry_get_title" then some (fun _ _ => r) else none

/-- Witness extension that declines (its get hook returns `noresult`). -/
def w1 : Extension Unit String := ⟨1, ["entry_get_title"], wGetHooks .noresult⟩

/-- Witness extension whose get hook returns the empty string (a falsy
value that must still count as supplying a result). -/
def w2 : Extension Unit String := ⟨2, ["entry_get_title"], wGetHooks (.val "")⟩

/-- Witness extension loaded after `w2`; its get hook must never be
consulted. -/
def w3 : Extension Unit String := ⟨3, ["entry_get_title"], wGetHooks (.val "E3")⟩

/-- Witness default implementation for the dispatch fixtures. -/
def wdefault : Unit → List (PyVal String) → PyVal String :=
  fun _ _ => .val "base-title"

/-- Witness for C1: with `w1` (declines), `w2` (returns `""`), `w3`
(would return `"E3"`) loaded in that order, the dispatch stops at `w2`:
the base result is the empty string, the default implementation is not
called, and `w3` is never consulted. -/
theorem C1_first_get_result_wins_witness :
    (∀ e ∈ [w1, w2, w3], ∀ f, e.hooks (getkey "entry" "title") = some f →
        (f () []).isNoreturn = false) ∧
    (make_method [w1, w2, w3] "entry" "title" wdefault () []).getTrace =
        (getPhaseSpec [w1, w2, w3] () (getkey "entry" "title") []).2 ∧
    (make_method [w1, w2, w3] "entry" "title" wdefault () []).base = .val "" ∧
    (make_method [w1, w2, w3] "entry" "title" wdefault () []).defaultCalled = false ∧
    (make_method [w1, w2, w3] "entry" "title" wdefault () []).getTrace =
        [⟨1, [], .noresult⟩, ⟨2, [], .val ""⟩] := by
  have hp : ∀ e ∈ [w1, w2, w3], ∀ f,
      e.hooks (getkey "entry" "title") = some f →
      (f () []).isNoreturn = false := by
    intro e he f hf
    fin_cases he <;>
      · simp only [w1, w2, w3, wGetHooks, getkey, String.reduceAppend,
          String.reduceEq, reduceIte, Option.some.injEq] at hf
        subst hf
        rfl
  exact ⟨hp, (C1_first_get_result_wins [w1, w2, w3] "entry" "title"
      wdefault () [] hp).1, by decide, by decide, by decide⟩

/-- C2: after the base result is fixed, every registered extension
defining a `{kind}_mod_{name}` hook is invoked in load order with no
early stop, each receiving the current result and producing the next
one; the final value is the left fold of the mod hooks over the
extension list, so with E1 loaded before E2 the final value is
`modE2(modE1(base))` — mods compose in load order, not the reverse.
(Hypothesis: mod hooks and the incoming base result are not the
internal `noreturn` sentinel.) -/
theorem C2_mod_hooks_fold_in_load_order {ι α : Type}
    (exts : List (Extension ι α)) (etype name : String) (inst : ι)
    (args : List (PyVal α)) (r0 : PyVal α)
    (hp : ∀ e ∈ exts, ∀ f, e.hooks (modkey etype name) = some f →
          ∀ r : PyVal α, (f inst (r :: args)).isNoreturn = false)
    (hr0 : r0.isNoreturn = false) :
    check_extensions exts inst (modkey etype name) args r0 true =
        modPhaseSpec exts inst (modkey etype name) args r0 ∧
    (check_extensions exts inst (modkey etype name) args r0 true).1 =
        exts.foldl (fun r e =>
          match e.hooks (modkey etype name) with
          | some f => f inst (r :: args)
          | none => r) r0 ∧
    (check_extensions exts inst (modkey etype name) args r0 true).2.map
          CallRec.ext =
        (exts.filter (fun e => (e.hooks (modkey etype name)).isSome)).map
          Extension.eid := by
  have h := check_extensions_mod_eq_spec exts inst (modkey etype name) args r0 hp hr0
  refine ⟨h, ?_, ?_⟩
  · rw [h]; exact modPhaseSpec_fst_foldl exts inst (modkey etype name) args r0
  · rw [h]; exact modPhaseSpec_trace_exts exts inst (modkey etype name) args r0

/-- Fixture hook table for the C2 witness: a mod hook for `entry`/`title`
appending the string `s` to the current result. -/
def wModHooks (s : String) :
    String → Option (Unit → List (PyVal String) → PyVal String) :=
  fun k =>
    if k = "entry_mod_title" then
      some (fun _ xs =>
        match xs with
        | .val r :: _ => .val (r ++ s)
        | _ => .val s)
    else none

/-- Witness extension E1: appends `"A"` to the current result. -/
def w4 : Extension Unit String := ⟨4, ["entry_mod_title"], wModHooks "A"⟩

/-- Witness extension E2, loaded after E1: appends `"B"`. -/
def w5 : Extension Unit String := ⟨5, ["entry_mod_title"], wModHooks "B"⟩

/-- Witness for C2: with E1 appending `"A"` loaded before E2 appending
`"B"`, the mod chain over base `"x"` yields `"xAB"` =
`modE2(modE1(base))`, and both extensions are consulted in load
order. -/
theorem C2_mod_hooks_fold_in_load_order_witness :
    (∀ e ∈ [w4, w5], ∀ f, e.hooks (modkey "entry" "title") = some f →
        ∀ r : PyVal String, (f () (r :: [])).isNoreturn = false) ∧
    (PyVal.val "x" : PyVal String).isNoreturn = false ∧
    (check_extensions [w4, w5] () (modkey "entry" "title") [] (.val "x") true).1 =
        [w4, w5].foldl (fun r e =>
          match e.hooks (modkey "entry" "title") with
          | some f => f () (r :: [])
          | none => r) (.val "x") ∧
    (check_extensions [w4, w5] () (modkey "entry" "title") [] (.val "x") true).1 =
        .val "xAB" ∧
    (check_extensions [w4, w5] () (modkey "entry" "title") [] (.val "x") true).2.map
        CallRec.ext = [4, 5] := by
  have hp : ∀ e ∈ [w4, w5], ∀ f,
      e.hooks (modkey "entry" "title") = some f →
      ∀ r : PyVal String, (f () (r :: [])).isNoreturn = false := by
    intro e he f hf r
    fin_cases he <;>
      · simp only [w4, w5, wModHooks, modkey, String.reduceAppend,
          String.reduceEq, reduceIte, Option.some.injEq] at hf
        subst hf
        cases r <;> rfl
  exact ⟨hp, rfl, (C2_mod_hooks_fold_in_load_order [w4, w5] "entry" "title"
      () [] (.val "x") hp rfl).2.1, by decide, by decide⟩

/-- C9: immediately after an entity of kind `k` finishes its
constructor, the wrapped constructor installed by the `extendable`
class decorator runs `check_extensions` with the `noreturn` sentinel
under the key `{k}_post_init`: every loaded extension defining that
hook is invoked with the new instance, in load order, none skipped, no
early stop, and the hooks' return values are ignored (the phase result
is always the `noreturn` sentinel, which `_newinit` discards). -/
theorem C9_post_init_notifies_every_extension {ι α : Type}
    (exts : List (Extension ι α)) (etype : String) (inst : ι) :
    extendable_post_init (α := α) exts etype inst =
      (.noreturn,
       exts.filterMap (fun e => (e.hooks (etype ++ "_post_init")).map
         (fun f => ⟨e.eid, [], f inst []⟩))) :=
  check_extensions_noreturn exts inst (etype ++ "_post_init") [] false

/-- Prefix test on character lists, used to model Python
`str.startswith` / `str.endswith` by terms that reduce by
computation. -/
def charsPre : List Char → List Char → Bool
  | [], _ => true
  | _ :: _, [] => false
  | a :: as, b :: bs => a == b && charsPre as bs

/-- Python `a.startswith(p)`. -/
def pyStartswith (a p : String) : Bool := charsPre p.data a.data

/-- Python `a.endswith(p)`. -/
def pyEndswith (a p : String) : Bool := charsPre p.data.reverse a.data.reverse

/-- The hook-detection test of `BlogExtension.__init__`:
`any(item for item in prefixed_items(dir(self), '{etype}_')
     if not item.endswith('mixin'))` —
the instance exposes some attribute named `{etype}_...` that is not the
auto-detected `{etype}_mixin` attribute.  (`prefixed_items` is plib's
iterator over the items of an iterable carrying the given prefix; the
`endswith('mixin')` test gives the same answer whether or not the
prefix is stripped.) -/
def has_hook_attr {ι α : Type} (e : Extension ι α) (etype : String) : Bool :=
  e.attrs.any (fun a => pyStartswith a (etype ++ "_") && !(pyEndswith a "mixin"))

/-- The registration loop of `BlogExtension.__init__` (lines 114-120 of
`simpleblog/extensions/__init__.py`): for each registered entity kind,
if the instance defines any `{etype}_*` attribute other than a mixin,
append the instance once to `extension_map[etype]`. -/
def register_extension {ι α : Type} (etypes : List String)
    (e : Extension ι α) (emap : String → List (Extension ι α)) :
    String → List (Extension ι α) :=
  fun t =>
    if etypes.contains t && has_hook_attr e t then emap t ++ [e] else emap t

/-- Occurrences of the extension with identity `n` in a list (Python
object identity). -/
def countEid {ι α : Type} (n : Nat) (l : List (Extension ι α)) : Nat :=
  (l.filter (fun e => e.eid == n)).length

theorem countEid_cons {ι α : Type} (n : Nat) (e : Extension ι α)
    (rest : List (Extension ι α)) :
    countEid n (e :: rest) =
      (if e.eid == n then 1 else 0) + countEid n rest := by
  simp only [countEid, List.filter_cons]
  split <;> simp [Nat.add_comm]

/-- Step equation for `check_extensions`: an extension that does not
define the hook is skipped. -/
theorem check_extensions_cons_none {ι α : Type} {e : Extension ι α}
    {rest : List (Extension ι α)} {inst : ι} {key : String}
    {args : List (PyVal α)} {r : PyVal α} {m : Bool}
    (h : e.hooks key = none) :
    check_extensions (e :: rest) inst key args r m =
      check_extensions rest inst key args r m := by
  simp [check_extensions, h]

/-- Step equation for `check_extensions` in notification mode: the hook
is called, its return value recorded but discarded, and the loop
continues. -/
theorem check_extensions_cons_noreturn {ι α : Type} {e : Extension ι α}
    {rest : List (Extension ι α)} {inst : ι} {key : String}
    {args : List (PyVal α)} {r : PyVal α} {m : Bool}
    {f : ι → List (PyVal α) → PyVal α}
    (h : e.hooks key = some f) (hr : r.isNoreturn = true) :
    check_extensions (e :: rest) inst key args r m =
      ((check_extensions rest inst key args r m).1,
       ⟨e.eid, args, f inst args⟩ ::
         (check_extensions rest inst key args r m).2) := by
  simp [check_extensions, h, hr]

/-- Step equation for the get phase when the hook supplies a
non-sentinel value: the loop breaks. -/
theorem check_extensions_cons_get_break {ι α : Type} {e : Extension ι α}
    {rest : List (Extension ι α)} {inst : ι} {key : String}
    {args : List (PyVal α)} {r : PyVal α}
    {f : ι → List (PyVal α) → PyVal α}
    (h : e.hooks key = some f) (hr : r.isNoreturn = false)
    (hs : (f inst args).isSentinel = false) :
    check_extensions (e :: rest) inst key args r false =
      (f inst args, [⟨e.eid, args, f inst args⟩]) := by
  simp [check_extensions, h, hr, hs]

/-- Step equation for the get phase when the hook returns a sentinel:
the loop continues with the updated result. -/
theorem check_extensions_cons_get_cont {ι α : Type} {e : Extension ι α}
    {rest : List (Extension ι α)} {inst : ι} {key : String}
    {args : List (PyVal α)} {r : PyVal α}
    {f : ι → List (PyVal α) → PyVal α}
    (h : e.hooks key = some f) (hr : r.isNoreturn = false)
    (hs : (f inst args).isSentinel = true) :
    check_extensions (e :: rest) inst key args r false =
      ((check_extensions rest inst key args (f inst args) false).1,
       ⟨e.eid, args, f inst args⟩ ::
         (check_extensions rest inst key args (f inst args) false).2) := by
  simp [check_extensions, h, hr, hs]

/-- Step equation for the mod phase: the hook receives the current
result and the loop always continues with the hook's return value. -/
theorem check_extensions_cons_mod {ι α : Type} {e : Extension ι α}
    {rest : List (Extension ι α)} {inst : ι} {key : String}
    {args : List (PyVal α)} {r : PyVal α}
    {f : ι → List (PyVal α) → PyVal α}
    (h : e.hooks key = some f) (hr : r.isNoreturn = false) :
    check_extensions (e :: rest) inst key args r true =
      ((check_extensions rest inst key args (f inst (r :: args)) true).1,
       ⟨e.eid, r :: args, f inst (r :: args)⟩ ::
         (check_extensions rest inst key args (f inst (r :: args)) true).2) := by
  simp [check_extensions, h, hr]

/-- Every hook invocation recorded by `check_extensions` belongs to an
extension present in the list it iterates. -/
theorem check_extensions_trace_mem {ι α : Type} (exts : List (Extension ι α))
    (inst : ι) (key : String) (args : List (PyVal α)) (r : PyVal α)
    (m : Bool) :
    ∀ rec ∈ (check_extensions exts inst key args r m).2,
      rec.ext ∈ exts.map Extension.eid := by
  induction exts generalizing r with
  | nil => intro rec h; simp [check_extensions] at h
  | cons e rest ih =>
    intro rec hrec
    cases h : e.hooks key with
    | none =>
      rw [check_extensions_cons_none h] at hrec
      exact List.mem_cons_of_mem _ (ih r rec hrec)
    | some f =>
      cases hnr : r.isNoreturn with
      | true =>
        rw [check_extensions_cons_noreturn h hnr] at hrec
        rcases List.mem_cons.1 hrec with h1 | h1
        · subst h1; exact List.mem_cons_self _ _
        · exact List.mem_cons_of_mem _ (ih r rec h1)
      | false =>
        cases m with
        | true =>
          rw [check_extensions_cons_mod h hnr] at hrec
          rcases List.mem_cons.1 hrec with h1 | h1
          · subst h1; exact List.mem_cons_self _ _
          · exact List.mem_cons_of_mem _ (ih _ rec h1)
        | false =>
          cases hs : (f inst args).isSentinel with
          | false =>
            rw [check_extensions_cons_get_break h hnr hs] at hrec
            rcases List.mem_singleton.1 hrec with h1
            subst h1; exact List.mem_cons_self _ _
          | true =>
            rw [check_extensions_cons_get_cont h hnr hs] at hrec
            rcases List.mem_cons.1 hrec with h1 | h1
            · subst h1; exact List.mem_cons_self _ _
            · exact List.mem_cons_of_mem _ (ih _ rec h1)

/-- Length of an eid-filtered trace after consing one record. -/
theorem filter_ext_cons_length {α : Type} (eid : Nat) (ar : List (PyVal α))
    (ret : PyVal α) (tr : List (CallRec α)) (n : Nat) :
    ((⟨eid, ar, ret⟩ :: tr).filter (fun rec => rec.ext == n)).length =
      (if eid == n then 1 else 0) +
        (tr.filter (fun rec => rec.ext == n)).length := by
  simp only [List.filter_cons]
  split <;> simp_all [Nat.add_comm]

/-- During one pass of `check_extensions`, an extension identity is
called at most as often as it occurs in the extension list. -/
theorem check_extensions_trace_count {ι α : Type} (exts : List (Extension ι α))
    (inst : ι) (key : String) (args : List (PyVal α)) (r : PyVal α)
    (m : Bool) (n : Nat) :
    ((check_extensions exts inst key args r m).2.filter
        (fun rec => rec.ext == n)).length ≤ countEid n exts := by
  induction exts generalizing r with
  | nil => simp [check_extensions, countEid]
  | cons e rest ih =>
    rw [countEid_cons]
    cases h : e.hooks key with
    | none =>
      rw [check_extensions_cons_none h]
      exact le_trans (ih r) (Nat.le_add_left _ _)
    | some f =>
      cases hnr : r.isNoreturn with
      | true =>
        rw [check_extensions_cons_noreturn h hnr, filter_ext_cons_length]
        exact Nat.add_le_add_left (ih r) _
      | false =>
        cases m with
        | true =>
          rw [check_extensions_cons_mod h hnr, filter_ext_cons_length]
          exact Nat.add_le_add_left (ih _) _
        | false =>
          cases hs : (f inst args).isSentinel with
          | false =>
            rw [check_extensions_cons_get_break h hnr hs,
              filter_ext_cons_length]
            simp only [List.filter_nil, List.length_nil, Nat.add_zero]
            exact Nat.le_add_right _ _
          | true =>
            rw [check_extensions_cons_get_cont h hnr hs,
              filter_ext_cons_length]
            exact Nat.add_le_add_left (ih _) _

/-- C10: registration appends an extension instance to a kind's
extension list at most once, even when the instance defines several
hooks for that kind; an instance with no (non-mixin) `{kind}_*`
attribute is not appended at all; a dispatch only ever consults
extensions present in the kind's list — so an extension defining hooks
only for another kind is never consulted — and during a single
dispatch each extension's hook is invoked at most once when the list is
duplicate-free. -/
theorem C10_registration_at_most_once {ι α : Type} (etypes : List String)
    (e : Extension ι α) (emap : String → List (Extension ι α)) (t : String)
    (hfresh : countEid e.eid (emap t) = 0) :
    countEid e.eid (register_extension etypes e emap t) ≤ 1 ∧
    (has_hook_attr e t = false → register_extension etypes e emap t = emap t) ∧
    (∀ (exts : List (Extension ι α)) (inst : ι) (key : String)
       (args : List (PyVal α)) (r : PyVal α) (m : Bool),
       (∀ e' ∈ exts, e'.eid ≠ e.eid) →
       ∀ rec ∈ (check_extensions exts inst key args r m).2, rec.ext ≠ e.eid) ∧
    (∀ (exts : List (Extension ι α)) (inst : ι) (key : String)
       (args : List (PyVal α)) (r : PyVal α) (m : Bool) (n : Nat),
       countEid n exts ≤ 1 →
       ((check_extensions exts inst key args r m).2.filter
           (fun rec => rec.ext == n)).length ≤ 1) := by
  refine ⟨?_, ?_, ?_, ?_⟩
  · unfold register_extension
    split
    · simp only [countEid, List.filter_append, List.length_append]
      simp only [countEid] at hfresh
      simp [hfresh, List.filter_cons]
    · rw [hfresh]
      exact Nat.zero_le 1
  · intro hno
    unfold register_extension
    simp [hno]
  · intro exts inst key args r m hne rec hrec heq
    have hm := check_extensions_trace_mem exts inst key args r m rec hrec
    rcases List.mem_map.1 hm with ⟨e', he', heid⟩
    exact hne e' he' (heid.trans heq)
  · intro exts inst key args r m n hcount
    exact le_trans (check_extensions_trace_count exts inst key args r m n) hcount

/-- Witness extension for C10: defines a get hook and a mod hook for
kind `entry` (and nothing for any other kind). -/
def wBoth : Extension Unit String :=
  ⟨9, ["entry_get_title", "entry_mod_title"], fun _ => none⟩

/-- Witness extension map for C10: no extension registered yet. -/
def wEmptyMap : String → List (Extension Unit String) := fun _ => []

/-- Witness for C10: a fresh extension defining both a get hook and a
mod hook for `entry` is appended exactly once to the `entry` list and
is not appended to the `page` list (it has no `page_*` attribute). -/
theorem C10_registration_at_most_once_witness :
    countEid 9 (register_extension ["blog", "entry", "page"] wBoth wEmptyMap "entry") ≤ 1 ∧
    countEid 9 (wEmptyMap "entry") = 0 ∧
    has_hook_attr wBoth "page" = false ∧
    register_extension ["blog", "entry", "page"] wBoth wEmptyMap "page" = wEmptyMap "page" ∧
    (register_extension ["blog", "entry", "page"] wBoth wEmptyMap "entry").length = 1 := by
  have h := C10_registration_at_most_once (ι := Unit) (α := String)
    ["blog", "entry", "page"] wBoth wEmptyMap "entry" (by decide)
  have h2 := C10_registration_at_most_once (ι := Unit) (α := String)
    ["blog", "entry", "page"] wBoth wEmptyMap "page" (by decide)
  exact ⟨h.1, by decide, by decide, h2.2.1 (by decide), by decide⟩

/-- Association-list lookup, modelling Python dict lookup in the
per-instance caches below. -/
def alookup {κ β : Type} [DecidableEq κ] : List (κ × β) → κ → Option β
  | [], _ => none
  | (k, v) :: rest, k' => if k' = k then some v else alookup rest k'

/-- Per-instance caches backing the two decorators from
`plib.stdlib.decotools` used by `extendable_property` and
`extendable_method` (`simpleblog/__init__.py` lines 323-334):
`cached_property` stores the computed value on the instance under the
attribute name at first access; `cached_method` keeps a per-instance
cache keyed by the call's arguments.  plib is an external dependency of
this repository; that `cached_property` caches per instance is recorded
in the source itself (the `shared_property` docstring, lines 130-133),
and per-argument memoization of `cached_method` is forced by the
source's own uses — e.g. `BlogObject.template_data(kind, format)` and
`BlogEntry.formatted(format, params)`, both `cached_method`-wrapped,
are called with different arguments on one instance and must return a
different result for each. -/
structure EntityCaches (α : Type) where
  props : List (String × PyVal α)
  meths : List ((String × List (PyVal α)) × PyVal α)

/-- Read of an `extendable_property` (the dispatch method built by
`make_method`, wrapped in `cached_property`, called with no
arguments): returns the value, the updated instance state, and whether
the dispatch chain actually ran on this read. -/
def extendable_property_get {ι α : Type} [DecidableEq α]
    (exts : List (Extension ι α)) (etype name : String)
    (func : ι → List (PyVal α) → PyVal α) (inst : ι)
    (st : EntityCaches α) : PyVal α × EntityCaches α × Bool :=
  match alookup st.props name with
  | some v => (v, st, false)
  | none =>
    let v := (make_method exts etype name func inst []).result
    (v, ⟨(name, v) :: st.props, st.meths⟩, true)

/-- Call of an `extendable_method` (the dispatch method built by
`make_method`, wrapped in `cached_method`): memoized per argument
list. -/
def extendable_method_call {ι α : Type} [DecidableEq α]
    (exts : List (Extension ι α)) (etype name : String)
    (func : ι → List (PyVal α) → PyVal α) (inst : ι)
    (args : List (PyVal α)) (st : EntityCaches α) :
    PyVal α × EntityCaches α × Bool :=
  match alookup st.meths (name, args) with
  | some v => (v, st, false)
  | none =>
    let v := (make_method exts etype name func inst args).result
    (v, ⟨st.props, ((name, args), v) :: st.meths⟩, true)

/-- C4 (counterexample): the claim says an extensible operation's
dispatch re-runs on every call.  It does not: `extendable_method` wraps
the dispatch in `cached_method`, so at this concrete input the second
call with the same arguments does not run the dispatch chain. -/
theorem C4_counterexample_second_call_does_not_rerun :
    (extendable_method_call [] "entry" "body" wdefault ()
        [PyVal.val "html"]
        (extendable_method_call [] "entry" "body" wdefault ()
          [PyVal.val "html"] ⟨[], []⟩).2.1).2.2 = false := by
  decide

/-- C4 (amended): for every extensible attribute the get/mod dispatch
chain executes exactly once per (object, attribute): the first read
runs it and every subsequent read returns the identical memoized value
without running it.  For every extensible operation the dispatch runs
once per distinct (object, argument-list) pair: a repeated call with
the same arguments returns the memoized result without re-running the
dispatch, while a call with a previously unseen argument list runs it
again. -/
theorem C4_attribute_memoized_operation_memoized_per_args {ι α : Type}
    [DecidableEq α] (exts : List (Extension ι α)) (etype name : String)
    (func : ι → List (PyVal α) → PyVal α) (inst : ι)
    (args args2 : List (PyVal α)) (st0 : EntityCaches α)
    (hprop : alookup st0.props name = none)
    (hmeth : alookup st0.meths (name, args) = none) :
    (extendable_property_get exts etype name func inst st0).2.2 = true ∧
    (extendable_property_get exts etype name func inst
        (extendable_property_get exts etype name func inst st0).2.1).2.2
      = false ∧
    (extendable_property_get exts etype name func inst
        (extendable_property_get exts etype name func inst st0).2.1).1
      = (extendable_property_get exts etype name func inst st0).1 ∧
    (extendable_method_call exts etype name func inst args st0).2.2 = true ∧
    (extendable_method_call exts etype name func inst args
        (extendable_method_call exts etype name func inst args st0).2.1).2.2
      = false ∧
    (extendable_method_call exts etype name func inst args
        (extendable_method_call exts etype name func inst args st0).2.1).1
      = (extendable_method_call exts etype name func inst args st0).1 ∧
    (alookup
        ((extendable_method_call exts etype name func inst args st0).2.1).meths
        (name, args2) = none →
      (extendable_method_call exts etype name func inst args2
          (extendable_method_call exts etype name func inst args st0).2.1).2.2
        = true) := by
  refine ⟨?_, ?_, ?_, ?_, ?_, ?_, ?_⟩
  · simp [extendable_property_get, hprop]
  · simp [extendable_property_get, hprop, alookup]
  · simp [extendable_property_get, hprop, alookup]
  · simp [extendable_method_call, hmeth]
  · simp [extendable_method_call, hmeth, alookup]
  · simp [extendable_method_call, hmeth, alookup]
  · intro h2
    simp only [extendable_method_call, hmeth] at h2 ⊢
    simp [h2]

/-- Witness for the amended C4: with no extensions loaded, the `body`
operation of an `entry` run on a fresh instance: the first property
read runs the chain, a repeat operation call with `"html"` does not
re-run it, and a first call with `"rss"` does. -/
theorem C4_attribute_memoized_operation_memoized_per_args_witness :
    alookup (EntityCaches.props (α := String) ⟨[], []⟩) "body" = none ∧
    alookup (EntityCaches.meths (α := String) ⟨[], []⟩)
        ("body", [PyVal.val "html"]) = none ∧
    (extendable_property_get [] "entry" "body" wdefault () ⟨[], []⟩).2.2
      = true ∧
    (extendable_method_call [] "entry" "body" wdefault () [PyVal.val "html"]
        (extendable_method_call [] "entry" "body" wdefault ()
          [PyVal.val "html"] ⟨[], []⟩).2.1).2.2 = false ∧
    (extendable_method_call [] "entry" "body" wdefault () [PyVal.val "rss"]
        (extendable_method_call [] "entry" "body" wdefault ()
          [PyVal.val "html"] ⟨[], []⟩).2.1).2.2 = true := by
  have h := C4_attribute_memoized_operation_memoized_per_args (ι := Unit)
    [] "entry" "body" wdefault () [PyVal.val "html"] [PyVal.val "rss"]
    ⟨[], []⟩ rfl rfl
  exact ⟨rfl, rfl, h.1, h.2.2.2.2.1, h.2.2.2.2.2.2 (by decide)⟩

/-- Python exceptions arising in the embedded modules. -/
inductive PyExc where
  | attributeError : String → PyExc
  | nameError : String → PyExc
  | valueError : PyExc
  | indexError : PyExc
  | blogExtensionError : String → PyExc
  deriving DecidableEq, Repr

/-- `Except.isOk` specialised to `PyExc` results. -/
def exceptOk {β : Type} : Except PyExc β → Bool
  | .ok _ => true
  | .error _ => false

/-- The ASCII whitespace characters stripped by Python `str.strip()`
(Unicode whitespace is out of scope for the cache keys and values
considered here). -/
def pyWs (c : Char) : Bool :=
  c == ' ' || c == '\t' || c == '\n' || c == '\r' || c == '\x0b' || c == '\x0c'

/-- Python `line.strip()`. -/
def pstrip (s : String) : String :=
  String.mk (((s.data.dropWhile pyWs).reverse.dropWhile pyWs).reverse)

/-- First occurrence of `sep` in a character list: the text before it
and the text after it. -/
def splitOnceChars (sep : List Char) : List Char → Option (List Char × List Char)
  | [] => none
  | c :: cs =>
    if charsPre sep (c :: cs) then some ([], (c :: cs).drop sep.length)
    else
      match splitOnceChars sep cs with
      | some (a, b) => some (c :: a, b)
      | none => none

/-- Last occurrence of `sep` in a character list. -/
def splitLastChars (sep : List Char) : List Char → Option (List Char × List Char)
  | [] => none
  | c :: cs =>
    match splitLastChars sep cs with
    | some (a, b) => some (c :: a, b)
    | none =>
      if charsPre sep (c :: cs) then some ([], (c :: cs).drop sep.length)
      else none

/-- Python `s.split(sep, 1)` for a non-empty separator. -/
def pysplit1 (s sep : String) : List String :=
  match splitOnceChars sep.data s.data with
  | none => [s]
  | some (a, b) => [String.mk a, String.mk b]

/-- Python `s.rsplit(sep, 1)` for a non-empty separator. -/
def pyrsplit1 (s sep : String) : List String :=
  match splitLastChars sep.data s.data with
  | none => [s]
  | some (a, b) => [String.mk a, String.mk b]

/-- Python dict insertion: overwrite in place if the key is present,
append otherwise (preserves first-insertion order, as `dict` does). -/
def dictInsert {κ β : Type} [DecidableEq κ] :
    List (κ × β) → κ → β → List (κ × β)
  | [], k, v => [(k, v)]
  | (k0, v0) :: rest, k, v =>
    if k = k0 then (k0, v) :: rest else (k0, v0) :: dictInsert rest k v

/-- `r(line)` in `BlogCache.cache` (`simpleblog/caching.py` lines
51-54): strip the line, then split it at the separator — at the first
occurrence normally, at the last occurrence with the key/value order
swapped back for a reversed cache. -/
def cache_line_parts (reverse : Bool) (sep : String) (line : String) :
    List String :=
  if reverse then (pyrsplit1 (pstrip line) sep).reverse
  else pysplit1 (pstrip line) sep

/-- The `dict(expr)` construction at the end of `BlogCache.cache`: fold
the decoded records into a dict in line order.  For a typed cache
(`objtype` set) the decode lambda `e` subscripts the tuple, so a
one-element tuple (a line the separator does not split) raises
`IndexError`; for an untyped cache the one-element tuple reaches
`dict()`, which raises `ValueError`. -/
def cache_lines_fold (reverse : Bool) (sep : String)
    (objtype : Option (String → String)) :
    List String → List (String × String) →
    Except PyExc (List (String × String))
  | [], m => .ok m
  | line :: rest, m =>
    match objtype with
    | some d =>
      match cache_line_parts reverse sep line with
      | [k, v] => cache_lines_fold reverse sep (some d) rest (dictInsert m k (d v))
      | _ => .error .indexError
    | none =>
      match cache_line_parts reverse sep line with
      | [k, v] => cache_lines_fold reverse sep none rest (dictInsert m k v)
      | _ => .error .valueError

/-- The `cache` cached-property of `BlogCache` (`simpleblog/caching.py`
lines 43-60): a missing backing file (`IOError`) yields an empty map;
otherwise every line is stripped, split at the separator and decoded,
and the records are assembled into a dict.  The file is modelled by
`disk`: `none` for a missing file, otherwise the list of lines
`readlines` returns. -/
def BlogCache_cache (reverse : Bool) (sep : String)
    (objtype : Option (String → String)) (disk : Option (List String)) :
    Except PyExc (List (String × String)) :=
  match disk with
  | none => .ok []
  | some lines => cache_lines_fold reverse sep objtype lines []

/-- `BlogCache.save` (`simpleblog/caching.py` lines 62-68).  Its first
statement is `items = self.cache.iteritems()`; `dict` has no attribute
`iteritems` on Python 3 (this file is an unported Python 2 remnant —
the next line also calls the Python 2 builtin `unicode`), so the call
raises `AttributeError` before anything is written.  The sorted
key-separator-value rewrite described by the spec is unreachable. -/
def BlogCache_save (cache : List (String × String)) (reverse : Bool)
    (sep : String) : Except PyExc (List String) :=
  .error (.attributeError "iteritems")

/-- The `fcache` closure produced by the `cached` decorator
(`simpleblog/caching.py` lines 74-103): load the cache map, return the
stored value on a hit; on a miss compute the value, coerce it through
`objtype` if declared, store it in the in-memory dict, call
`BlogCache.save`, and return it.  The returned flag records whether the
compute function ran. -/
def fcache (reverse : Bool) (sep : String)
    (objtype : Option (String → String)) (key : String)
    (compute : Unit → String) (disk : Option (List String)) :
    Except PyExc (String × Bool) :=
  match BlogCache_cache reverse sep objtype disk with
  | .error e => .error e
  | .ok cache =>
    match alookup cache key with
    | some v => .ok (v, false)
    | none =>
      let value := compute ()
      let value := match objtype with | some d => d value | none => value
      match BlogCache_save (dictInsert cache key value) reverse sep with
      | .error e => .error e
      | .ok _ => .ok (value, true)

/-- The record fold of `BlogCache.cache` succeeds exactly when every
line splits into a key/value pair at the declared separator. -/
theorem cache_lines_fold_ok_iff (reverse : Bool) (sep : String)
    (objtype : Option (String → String)) (lines : List String) :
    ∀ m, exceptOk (cache_lines_fold reverse sep objtype lines m) = true ↔
      ∀ line ∈ lines, (cache_line_parts reverse sep line).length = 2 := by
  induction lines with
  | nil =>
    intro m
    cases objtype <;> simp [cache_lines_fold, exceptOk]
  | cons line rest ih =>
    intro m
    cases objtype with
    | some d =>
      cases hp : cache_line_parts reverse sep line with
      | nil => simp [cache_lines_fold, hp, exceptOk]
      | cons k t =>
        cases t with
        | nil => simp [cache_lines_fold, hp, exceptOk]
        | cons v t2 =>
          cases t2 with
          | nil => simp [cache_lines_fold, hp, ih]
          | cons w t3 => simp [cache_lines_fold, hp, exceptOk]
    | none =>
      cases hp : cache_line_parts reverse sep line with
      | nil => simp [cache_lines_fold, hp, exceptOk]
      | cons k t =>
        cases t with
        | nil => simp [cache_lines_fold, hp, exceptOk]
        | cons v t2 =>
          cases t2 with
          | nil => simp [cache_lines_fold, hp, ih]
          | cons w t3 => simp [cache_lines_fold, hp, exceptOk]

/-- C8: loading a cache's backing file treats a missing file as an
empty map; if the file exists and contains a line that the declared
separator cannot split into a key/value pair, loading fails with an
error (for an untyped cache a `ValueError` from building the dict, for
a typed cache an `IndexError` from the decode lambda — the spec's error
taxonomy files both under configuration errors), and a successful load
certifies that every line split cleanly — a malformed record is never
silently dropped. -/
theorem C8_missing_file_empty_malformed_line_fails (reverse : Bool)
    (sep : String) (objtype : Option (String → String))
    (lines : List String) :
    BlogCache_cache reverse sep objtype none = .ok [] ∧
    ((∃ line ∈ lines, (cache_line_parts reverse sep line).length ≠ 2) →
      ∃ e, BlogCache_cache reverse sep objtype (some lines) = .error e) ∧
    (∀ m, BlogCache_cache reverse sep objtype (some lines) = .ok m →
      ∀ line ∈ lines, (cache_line_parts reverse sep line).length = 2) := by
  refine ⟨rfl, ?_, ?_⟩
  · rintro ⟨line, hline, hbad⟩
    cases hres : cache_lines_fold reverse sep objtype lines [] with
    | ok m =>
      exfalso
      have h := (cache_lines_fold_ok_iff reverse sep objtype lines []).1
        (by simp [hres, exceptOk])
      exact hbad (h line hline)
    | error e =>
      exact ⟨e, by simp [BlogCache_cache, hres]⟩
  · intro m hm
    have hok : exceptOk (cache_lines_fold reverse sep objtype lines []) = true := by
      simp only [BlogCache_cache] at hm
      simp [hm, exceptOk]
    exact (cache_lines_fold_ok_iff reverse sep objtype lines []).1 hok

/-- Witness for C8: a file with lines `"k v"` and `"bad"` (the second
has no separator) fails to load, and a missing file loads as the empty
map. -/
theorem C8_missing_file_empty_malformed_line_fails_witness :
    (∃ line ∈ ["k v", "bad"], (cache_line_parts false " " line).length ≠ 2) ∧
    (∃ e, BlogCache_cache false " " none (some ["k v", "bad"]) = .error e) ∧
    BlogCache_cache false " " none none = .ok [] := by
  have h := C8_missing_file_empty_malformed_line_fails false " " none
    ["k v", "bad"]
  exact ⟨by decide, h.2.1 (by decide), h.1⟩

/-- C5: evaluation of the `cached` decorator's `fcache` at concrete
inputs.  The hit path behaves as the claim says: the stored value is
returned and the compute function does not run.  The miss path does
not: the computed value is stored in the in-memory dict, but
`cacheobj.save()` raises `AttributeError` (`dict.iteritems` does not
exist on Python 3), so the call propagates an exception instead of
persisting the map and returning the value. -/
theorem C5_cache_miss_raises_instead_of_persisting :
    fcache false " " none "k" (fun _ => "unused") (some ["k v"]) =
      .ok ("v", false) ∧
    fcache false " " none "k2" (fun _ => "fresh") (some ["k v"]) =
      .error (.attributeError "iteritems") := by
  exact ⟨rfl, rfl⟩

/-- C6: the sorted key-separator-value rewrite the claim describes is
unreachable: `BlogCache.save` raises `AttributeError` on its first
statement (`self.cache.iteritems()` — Python 2 remnant), so a
`get_or_compute` sequence on a fresh cache fails at the first miss and
the backing file is never written, making the claimed round trip
impossible. -/
theorem C6_save_raises_attribute_error :
    BlogCache_save [("a", "1"), ("b", "2")] false " " =
      .error (.attributeError "iteritems") ∧
    fcache false " " none "a" (fun _ => "1") none =
      .error (.attributeError "iteritems") := by
  exact ⟨rfl, rfl⟩

/-- `name.replace('-', '_')` in `load_submodule`. -/
def pyReplaceHyphen (name : String) : String :=
  String.mk (name.data.map (fun c => if c == '-' then '_' else c))

/-- An importable Python module, as far as the loader can observe it:
`hasExtClass` records whether `vars(mod)` holds a proper subclass of
`BlogExtension`.  (The loader never gets to inspect this flag: see
`first_subclass`.) -/
structure PyModule where
  mid : Nat
  hasExtClass : Bool
  deriving DecidableEq, Repr

/-- `first_subclass` in `simpleblog/sub.py` (lines 17-25):
`return first(obj for obj in vars(o).itervalues() ...)`.  The name
`first` is never imported in `sub.py`, so evaluating the call raises
`NameError: name 'first' is not defined` — on any Python version, for
every module, before the generator can run (on Python 3,
`dict.itervalues` would be an `AttributeError` besides).  The
`raise err("no {0} in {1} module!")` branch of `load_submodule` is
therefore unreachable. -/
def first_subclass (mod : PyModule) : Except PyExc String :=
  .error (.nameError "first")

/-- `load_submodule` in `simpleblog/sub.py` (lines 28-45), instantiated
as the extension loader uses it (`err` = `BlogExtensionError`):
normalize hyphens to underscores, try the user-supplied extension
directory first (modelled by the `user` import table, reachable when
`subdir` is configured), fall back to the built-in
`simpleblog.extensions` namespace (`builtin` table); an unresolvable
name raises a `BlogExtensionError` naming the extension; a resolved
module is handed to `first_subclass`. -/
def load_submodule (user builtin : List (String × PyModule)) (subdir : Bool)
    (subtype : String) (name : String) : Except PyExc (PyModule × String) :=
  let nm := pyReplaceHyphen name
  let mod0 := if subdir then alookup user nm else none
  let mod := match mod0 with
    | some m => some m
    | none => alookup builtin nm
  match mod with
  | none => .error (.blogExtensionError (subtype ++ " " ++ nm ++ " not found!"))
  | some m =>
    match first_subclass m with
    | .error e => .error e
    | .ok k => .ok (m, k)

/-- `load` in `simpleblog/ext.py` consuming the `load_subs` generator:
resolve and instantiate each declared extension in order; the first
failure propagates and aborts the whole load. -/
def ext_load (user builtin : List (String × PyModule)) (subdir : Bool) :
    List String → Except PyExc (List (PyModule × String))
  | [] => .ok []
  | name :: rest =>
    match load_submodule user builtin subdir "extension" name with
    | .error e => .error e
    | .ok mk =>
      match ext_load user builtin subdir rest with
      | .error e => .error e
      | .ok r => .ok (mk :: r)

/-- `load_blog` in `simpleblog/__init__.py` (lines 920-924):
`initialize` loads the declared extensions, and only afterwards is the
Blog object constructed; the `Bool` result records that the Blog
constructor ran. -/
def load_blog (user builtin : List (String × PyModule)) (subdir : Bool)
    (extensions : List String) : Except PyExc Bool :=
  match ext_load user builtin subdir extensions with
  | .error e => .error e
  | .ok _ => .ok true

/-- Built-in module table for the loader evaluation: `b` is a
resolvable extension module containing a `BlogExtension` subclass;
`my_ext` is a resolvable module without one. -/
def wBuiltinMods : List (String × PyModule) := [("b", ⟨0, true⟩), ("my_ext", ⟨1, false⟩)]

/-- C7: evaluation of the loader.  The unresolvable-name half of the
claim holds: loading `["a", "b"]` where only `"b"` resolves raises a
fatal `BlogExtensionError` naming `a` and aborts before any Blog is
constructed, whatever else is declared.  The no-extension-class half
does not: a resolved module — with or without a `BlogExtension`
subclass, hyphen-normalized or not — makes the loader raise
`NameError: name 'first' is not defined` from `sub.first_subclass`
(a Python 2 remnant), so the fatal extension error naming the
class-less module is unreachable. -/
theorem C7_unresolvable_aborts_but_classless_raises_name_error :
    load_blog [] wBuiltinMods false ["a", "b"] =
      .error (.blogExtensionError "extension a not found!") ∧
    (∀ names : List String, load_blog [] wBuiltinMods false ("a" :: names) =
      .error (.blogExtensionError "extension a not found!")) ∧
    load_blog [] wBuiltinMods false ["my_ext"] =
      .error (.nameError "first") ∧
    load_blog [] wBuiltinMods false ["b"] =
      .error (.nameError "first") ∧
    load_blog [] wBuiltinMods false ["my-ext"] =
      .error (.nameError "first") := by
  refine ⟨rfl, fun names => rfl, rfl, rfl, rfl⟩

/-- A Python class object: an identity (modelling Python object
identity), the methods of the class's own `__dict__` (bodies abstracted
to numeric implementation ids — only ordinary, non-hook methods matter
for mixin precedence), and the tuple of direct base classes. -/
inductive PyClass where
  | mk : Nat → List (String × Nat) → List PyClass → PyClass
  deriving Repr

/-- The class's identity. -/
def PyClass.cid : PyClass → Nat
  | .mk i _ _ => i

/-- The class's own `__dict__` method table. -/
def PyClass.methods : PyClass → List (String × Nat)
  | .mk _ ms _ => ms

/-- The class's `__bases__`. -/
def PyClass.bases : PyClass → List PyClass
  | .mk _ _ bs => bs

/-- `issubclass(c, marker)`, the marker class given by identity,
walking the base-class graph.  The fuel bounds recursion depth; the
hierarchies built by the source are finite and all uses below supply
ample fuel. -/
def issub : Nat → PyClass → Nat → Bool
  | 0, _, _ => false
  | fuel + 1, c, markerId =>
    c.cid == markerId || c.bases.any (fun b => issub fuel b markerId)

/-- One selection step of the C3 merge: the head of the first list that
appears in no list's tail. -/
def c3SelectHead (ls : List (List PyClass)) : Option PyClass :=
  (ls.filterMap List.head?).find?
    (fun h => !(ls.any (fun l => (l.drop 1).any (fun c => c.cid == h.cid))))

/-- Remove a selected class from the head of a list (it can only occur
as a head once selected). -/
def c3Remove (h : PyClass) (l : List PyClass) : List PyClass :=
  match l with
  | [] => []
  | c :: cs => if c.cid == h.cid then cs else c :: cs

/-- The C3 merge used by Python's MRO computation, with fuel. -/
def c3Merge : Nat → List (List PyClass) → List PyClass
  | 0, _ => []
  | fuel + 1, ls =>
    let ls2 := ls.filter (fun l => !l.isEmpty)
    if ls2.isEmpty then []
    else
      match c3SelectHead ls2 with
      | none => []
      | some h => h :: c3Merge fuel (ls2.map (c3Remove h))

/-- The C3 linearization (`cls.__mro__`) of a class, with fuel. -/
def mro : Nat → PyClass → List PyClass
  | 0, _ => []
  | fuel + 1, c => c :: c3Merge fuel ((c.bases.map (mro fuel)) ++ [c.bases])

/-- Python attribute lookup on a class: the first class in the MRO
whose own `__dict__` defines the name supplies the method. -/
def mroLookup (fuel : Nat) (name : String) (c : PyClass) : Option Nat :=
  (mro fuel c).findSome? (fun k => alookup k.methods name)

/-- The mixin-composition step of `BlogExtension.__init__` (lines
121-133 of `simpleblog/extensions/__init__.py`): given the detected
mixin and the kind's current live type `oldcls`, build the new live
type `type(oldcls)('Extended', bases, {})` — with
`bases = (mixin,) + oldcls.__bases__` (insert alongside the previously
woven mixins) if `issubclass(oldcls, mixin_klass)` already holds, and
`bases = (mixin, oldcls)` (wrap) otherwise — and install it as the
kind's live type.  (`wraps_class` only copies name/docstring metadata;
`mixin.extension_type = etype` and `extend_attributes(mixin)` rewrite
extendable-attr descriptors and do not touch ordinary methods.) -/
def compose_mixin (markerId : Nat) (mixin oldcls : PyClass) (newId : Nat) :
    PyClass :=
  if issub 32 oldcls markerId then .mk newId [] (mixin :: oldcls.bases)
  else .mk newId [] [mixin, oldcls]

/-- Python's implicit root class `object`. -/
def objectCls : PyClass := .mk 1 [] []

/-- `BlogConfigUser`. -/
def blogConfigUserCls : PyClass := .mk 2 [] [objectCls]

/-- `BlogObject`. -/
def blogObjectCls : PyClass := .mk 3 [] [blogConfigUserCls]

/-- `BlogSource`. -/
def blogSourceCls : PyClass := .mk 4 [] [blogObjectCls]

/-- `BlogEntry`, carrying an ordinary method `m` with implementation
`v0` — the kind's base live type. -/
def blogEntryCls (v0 : Nat) : PyClass := .mk 5 [("m", v0)] [blogSourceCls]

/-- The `EntryMixin` marker class (its body is `pass`). -/
def entryMixinCls : PyClass := .mk 6 [] [blogConfigUserCls]

/-- E1's entry mixin: overrides `m` with implementation `v1`. -/
def mixinM1 (v1 : Nat) : PyClass := .mk 7 [("m", v1)] [entryMixinCls]

/-- E2's entry mixin, loaded after E1: overrides `m` with `v2`. -/
def mixinM2 (v2 : Nat) : PyClass := .mk 8 [("m", v2)] [entryMixinCls]

set_option maxHeartbeats 2000000 in
/-- C3: weaving E1's mixin into the base `entry` type wraps it
(`bases = (mixin, oldcls)`); weaving E2's mixin afterwards finds the
marker already incorporated and inserts it alongside
(`bases = (mixin,) + oldcls.__bases__` = `(M2, M1, BlogEntry)`) instead
of re-wrapping; and for any implementations `v0`, `v1`, `v2` of the
same ordinary method, Python's C3 method resolution on the resulting
live types gives E1's override after the first weave and E2's override
after both — instances constructed after both loads exhibit E2's
method, the later mixin preceding the earlier one and the base. -/
theorem C3_later_mixin_takes_precedence (v0 v1 v2 : Nat) :
    compose_mixin 6 (mixinM1 v1) (blogEntryCls v0) 9 =
      .mk 9 [] [mixinM1 v1, blogEntryCls v0] ∧
    compose_mixin 6 (mixinM2 v2)
        (compose_mixin 6 (mixinM1 v1) (blogEntryCls v0) 9) 10 =
      .mk 10 [] [mixinM2 v2, mixinM1 v1, blogEntryCls v0] ∧
    mroLookup 32 "m" (blogEntryCls v0) = some v0 ∧
    mroLookup 32 "m" (compose_mixin 6 (mixinM1 v1) (blogEntryCls v0) 9) =
      some v1 ∧
    mroLookup 32 "m" (compose_mixin 6 (mixinM2 v2)
        (compose_mixin 6 (mixinM1 v1) (blogEntryCls v0) 9) 10) = some v2 := by
  refine ⟨rfl, rfl, rfl, rfl, rfl⟩

end Simpleblog
